import Mathlib

/-!
Verification development for the QumuloReplication repository.

The Python modules are shallowly embedded in Lean:

* `TargetCluster` models the load-balancing state of
  `replication.TargetCluster`: the insertion-ordered dict `dst_load`
  becomes an association list `List (String × Nat)` (Python dicts keep
  insertion order and have pairwise-distinct keys, reflected by a
  `Nodup` hypothesis on the key list where it matters), and
  `get_next_dst_ip` mirrors `min(self.dst_load, key=self.dst_load.get)`
  followed by `self.dst_load[min_ip] += 1`.  Python's `min` keeps the
  first of several minimal elements, which `minKey` reproduces.
* `TargetCluster.accept_pending_replications` models the acceptance
  loop of `replication.py`; the external `authorize` call is abstracted
  as a fallible oracle, and the `try/except` of the source becomes a
  `match` on the oracle's `Except` result.  Logging, display and the
  interactive confirmation prompt are I/O that carries no data flow and
  is omitted.
* `ReplicationManager.populate_replication_cache` models the cache
  population loop, with the Python dict embedded as an
  insertion-ordered association list updated by `dictInsert`.
* `SpecModel` holds definitions modelled from the specification for the
  parts of the repository that are exercised by its test-suite
  (`tests/test_create_replications.py`, `tests/test_validate_args.py`,
  `tests/test_target_cluster.py`) but whose implementation file is not
  part of the source snapshot: the filter- and destination-prefix-aware
  `create_replications`/`clean_replications`, the filter-validating
  `validate_args`, and the network-name based address discovery.
-/

namespace TargetCluster

/-- Python's `min(iterable, key=...)` over the tail of the dict view,
with `p` the first element: the running best is replaced only when a
later value is strictly smaller, so the first minimal element wins. -/
def minKey (p : String × Nat) : List (String × Nat) → String × Nat
  | [] => p
  | q :: rest => minKey (if q.2 < p.2 then q else p) rest

/-- `self.dst_load[min_ip] += 1`: increment the load stored under `key`
(in a dict the key is unique, so with `Nodup` keys exactly one entry
changes). -/
def bump (key : String) (s : List (String × Nat)) : List (String × Nat) :=
  s.map (fun q => if q.1 = key then (q.1, q.2 + 1) else q)

/-- `TargetCluster.get_next_dst_ip` from `replication.py`: raises
`ValueError` on an empty pool, otherwise returns the first address of
minimal load and increments its counter. -/
def get_next_dst_ip (s : List (String × Nat)) :
    Except String (String × List (String × Nat)) :=
  match s with
  | [] => Except.error "No destination IPs available for load balancing"
  | p :: rest =>
    Except.ok ((minKey p rest).1, bump (minKey p rest).1 (p :: rest))

/-- The `dst_load` dict right after `TargetCluster.__init__`: every
available IP mapped to load `0`, in pool order. -/
def initLoad (ips : List String) : List (String × Nat) :=
  ips.map (fun ip => (ip, 0))

/-- `n` successive calls to `get_next_dst_ip`, threading the mutated
`dst_load` state; the returned addresses are discarded, only the final
state is kept. -/
def iterateNext : Nat → List (String × Nat) → Except String (List (String × Nat))
  | 0, s => Except.ok s
  | n + 1, s =>
    match get_next_dst_ip s with
    | Except.error e => Except.error e
    | Except.ok (_, s') => iterateNext n s'

/-- The keys of the `dst_load` dict, in stored order. -/
def keysOf (s : List (String × Nat)) : List String := s.map Prod.fst

/-- A destination-side relationship record as consumed by
`accept_pending_replications`; every field is optional, mirroring the
`dict.get` access pattern of the source. -/
structure Relationship where
  id : Option String
  state : Option String
  relationship_state : Option String
  source_cluster_name : Option String
  source_root_path : Option String
  target_root_path : Option String
deriving DecidableEq

/-- Python's `str.upper` (restricted to the character-wise uppercase
mapping, which is all the state markers need). -/
def strUpper (s : String) : String := String.mk (s.data.map Char.toUpper)

/-- The pending filter of `accept_pending_replications`
(`replication.py` lines 213-225): missing `state` and
`relationship_state` fields default to the empty string, and the check
compares the uppercased value against the two pending markers. -/
def isPending (rel : Relationship) : Bool :=
  strUpper (rel.state.getD "") == "AWAITING_AUTHORIZATION" ||
  strUpper (rel.state.getD "") == "PENDING" ||
  strUpper (rel.relationship_state.getD "") == "AWAITING_AUTHORIZATION" ||
  strUpper (rel.relationship_state.getD "") == "PENDING"

/-- An entry of the `accepted` list built by
`accept_pending_replications`. -/
structure AcceptedRec where
  id : Option String
  target_path : String
  source_cluster : String
deriving DecidableEq

/-- The dict appended to `accepted` on a successful `authorize` call. -/
def mkAccepted (rel : Relationship) : AcceptedRec :=
  { id := rel.id
    target_path := rel.target_root_path.getD "N/A"
    source_cluster := rel.source_cluster_name.getD "N/A" }

/-- The authorization loop of `accept_pending_replications`: one
`authorize` attempt per candidate, the `try/except Exception` of the
source becoming a `match` on the oracle's result, so a failure is
dropped (after logging, which carries no data) and iteration
continues. -/
def acceptLoop (auth : Option String → Except String Unit) :
    List Relationship → List AcceptedRec
  | [] => []
  | rel :: rest =>
    match auth rel.id with
    | Except.ok _ => mkAccepted rel :: acceptLoop auth rest
    | Except.error _ => acceptLoop auth rest

/-- `TargetCluster.accept_pending_replications` with `confirm=False`:
filter the listed relationships down to pending ones, then attempt each
independently; display/printing is I/O without data flow and is
omitted.  The collaborator's `authorize` endpoint is the oracle
`auth`. -/
def accept_pending_replications (auth : Option String → Except String Unit)
    (rels : List Relationship) : List AcceptedRec :=
  acceptLoop auth (rels.filter (fun rel => isPending rel))

/-- The sequence of relationship ids on which the source issues an
`authorize` call: exactly one call per record passing the pending
filter, regardless of the call's outcome. -/
def authorizeCalls (rels : List Relationship) : List (Option String) :=
  (rels.filter (fun rel => isPending rel)).map (fun rel => rel.id)

end TargetCluster

namespace ReplicationManager

/-- A source-side relationship record as consumed by
`populate_replication_cache`; fields read via `dict.get`, hence
optional. -/
structure SourceRel where
  id : Option String
  source_root_path : Option String
  source_root_id : Option String
  target_address : Option String
deriving DecidableEq

/-- A value of the `repli_paths` cache dict. -/
structure CacheEntry where
  fid : Option String
  replid : Option String
  dst : Option String
deriving DecidableEq

/-- Python dict assignment `d[k] = v` on an insertion-ordered dict
embedded as an association list: overwrite in place when the key
exists, append otherwise. -/
def dictInsert (cache : List (Option String × CacheEntry)) (k : Option String)
    (v : CacheEntry) : List (Option String × CacheEntry) :=
  if cache.any (fun p => p.1 == k) then
    cache.map (fun p => if p.1 = k then (k, v) else p)
  else cache ++ [(k, v)]

/-- The cache value built for one fetched record
(`replication.py` lines 349-358). -/
def entryOf (repli : SourceRel) : CacheEntry :=
  { fid := repli.source_root_id, replid := repli.id, dst := repli.target_address }

/-- `ReplicationManager.populate_replication_cache`: iterate over the
fetched source-relationship listing and assign
`self.repli_paths[source_root_path] = {...}` for each record.  The
pre-call contents of `repli_paths` are the `cache` argument; note the
source never clears the dict before the loop. -/
def populate_replication_cache (cache : List (Option String × CacheEntry))
    (relationships : List SourceRel) : List (Option String × CacheEntry) :=
  relationships.foldl
    (fun c repli => dictInsert c repli.source_root_path (entryOf repli)) cache

/-- The key set (in insertion order) of the `repli_paths` dict. -/
def cacheKeys (cache : List (Option String × CacheEntry)) : List (Option String) :=
  cache.map Prod.fst

end ReplicationManager

namespace SpecModel

/-- Python's substring operator `pat in s` on character lists: the
needle is a prefix of some suffix of the haystack. -/
def hasSub (needle : List Char) : List Char → Bool
  | [] => needle.isEmpty
  | c :: rest => needle.isPrefixOf (c :: rest) || hasSub needle rest

/-- Substring test on strings (`needle in s` in Python). -/
def strHasSub (needle s : String) : Bool := hasSub needle.data s.data

/-- Modelled from the spec: the `FilterSpec` matching rule of section 3
(the filter-aware `create_replications`/`clean_replications`
implementation is exercised by `tests/test_create_replications.py` but
absent from the source snapshot).  A path matches when, if an include
set is present, at least one include substring occurs in it, and, if an
exclude set is present, no exclude substring occurs in it; with no set
present every path matches. -/
def matchesFilter (filteri filtere : Option (List String)) (path : String) : Bool :=
  (match filteri with
   | none => true
   | some pats => pats.any (fun p => strHasSub p path)) &&
  (match filtere with
   | none => true
   | some pats => !(pats.any (fun p => strHasSub p path)))

/-- Modelled from the spec: destination-path computation of
`create_replications` step 3 (the `dst_path`-aware implementation is
exercised by `tests/test_create_replications.py` but absent from the
source snapshot).  A prefix of `None`, `""` or `"/"` leaves the source
path unchanged; any other prefix is concatenated verbatim. -/
def compute_dst_path (dst_path : Option String) (source_path : String) : String :=
  match dst_path with
  | none => source_path
  | some p => if p = "" ∨ p = "/" then source_path else p ++ source_path

/-- A `tree_walk_preorder` entry: path plus type tag. -/
structure DirEntry where
  path : String
  type : String
deriving DecidableEq

/-- The relationship record returned by a successful
`create_source_relationship` call. -/
structure CreatedRec where
  relid : String
  address : String
  source_path : String
  target_path : String
deriving DecidableEq

/-- Modelled from the spec: the per-entry loop of
`create_replications(basePath, addressPool, destinationPathPrefix,
filterSpec)` (spec section 4.2; the implementation with `dst_path`,
`filteri`, `filtere` and per-item failure tolerance is exercised by
`tests/test_create_replications.py` but absent from the source
snapshot).  For each directory entry: a filtered-out path is skipped
silently; a path already in the cache is skipped; otherwise an address
is drawn from the pool and a create call is issued through `oracle`.  A
create failure is logged (no data flow) and the entry omitted from the
tally, with no retry, and processing continues; an empty pool is a
fatal configuration error. -/
def create_loop (oracle : String → String → String → Except String String)
    (cache : List String) (dstp : Option String)
    (filteri filtere : Option (List String)) :
    List DirEntry → List (String × Nat) →
      Except String (List CreatedRec × List (String × Nat))
  | [], pool => Except.ok ([], pool)
  | e :: rest, pool =>
    if e.type = "FS_FILE_TYPE_DIRECTORY" then
      if matchesFilter filteri filtere e.path then
        let target := compute_dst_path dstp e.path
        if e.path ∈ cache then create_loop oracle cache dstp filteri filtere rest pool
        else
          match TargetCluster.get_next_dst_ip pool with
          | Except.error err => Except.error err
          | Except.ok (addr, pool') =>
            match oracle addr e.path target with
            | Except.ok rid =>
              match create_loop oracle cache dstp filteri filtere rest pool' with
              | Except.error err => Except.error err
              | Except.ok (cs, pfin) =>
                Except.ok (⟨rid, addr, e.path, target⟩ :: cs, pfin)
            | Except.error _ => create_loop oracle cache dstp filteri filtere rest pool'
      else create_loop oracle cache dstp filteri filtere rest pool
    else create_loop oracle cache dstp filteri filtere rest pool

/-- Modelled from the spec: `create_replications` walks one level below
the base path and discards the first returned entry (the base path
itself), then runs the per-entry loop. -/
def create_replications (oracle : String → String → String → Except String String)
    (cache : List String) (dstp : Option String)
    (filteri filtere : Option (List String)) (entries : List DirEntry)
    (pool : List (String × Nat)) :
    Except String (List CreatedRec × List (String × Nat)) :=
  create_loop oracle cache dstp filteri filtere (entries.drop 1) pool

/-- Modelled from the spec: `clean_replications(basePath, filterSpec)`
(spec section 4.2; the filter-aware, count-returning implementation is
exercised by `tests/test_create_replications.py` but absent from the
source snapshot).  Iterates the populated cache, given as an
association list from source path to relationship id; every entry whose
source path starts with the base path and passes the filter is deleted
by id (the collected list) and counted; the final count is returned. -/
def clean_replications (basepath : String) (filteri filtere : Option (List String)) :
    List (String × String) → List String × Nat
  | [] => ([], 0)
  | (path, rid) :: rest =>
    let r := clean_replications basepath filteri filtere rest
    if basepath.isPrefixOf path && matchesFilter filteri filtere path then
      (rid :: r.1, r.2 + 1)
    else r

/-- The command-line argument record consumed by `validate_args`. -/
structure Args where
  action : String
  src_host : Option String
  src_user : Option String
  src_password : Option String
  dst_host : Option String
  dst_user : Option String
  dst_password : Option String
  filteri : Option (List String)
  filtere : Option (List String)
deriving DecidableEq

/-- Modelled from the spec: `validate_args` with the filter
mutual-exclusion check (exercised by `tests/test_validate_args.py` but
absent from the source snapshot's `validate_args`).  All validation
checks run first and raise a configuration error; only after every
check passes are clients created (the first I/O), here represented by
the connected hosts in the success value, so an error return means no
collaborator-API call was issued. -/
def validate_args (args : Args) : Except String (Option String × Option String) :=
  if args.filteri.getD [] ≠ [] ∧ args.filtere.getD [] ≠ [] then
    Except.error "Cannot use filteri and filtere together: choose include or exclude, not both"
  else if (args.action = "summary" ∨ args.action = "create") ∧
      (args.src_host = none ∨ args.src_user = none) then
    Except.error ("src_host and src_user are required for the " ++ args.action ++ " action")
  else if args.action = "create" ∧ (args.dst_host = none ∨ args.dst_user = none) then
    Except.error "dst_host and dst_user are required for the create action"
  else if args.action = "clean" ∧ (args.src_host = none ∨ args.src_user = none) ∧
      (args.dst_host = none ∨ args.dst_user = none) then
    Except.error "the clean action requires at least src or dst credentials"
  else if args.action = "accept" ∧ (args.dst_host = none ∨ args.dst_user = none) then
    Except.error "dst_host and dst_user are required for the accept action"
  else
    Except.ok
      (if args.src_host.isSome ∧ args.src_user.isSome then args.src_host else none,
       if args.dst_host.isSome ∧ args.dst_user.isSome then args.dst_host else none)

/-- One network as reported by a node in `list_network_status_v2`. -/
structure NetworkStatus where
  name : String
  floating_addresses : List String
deriving DecidableEq

/-- One reporting node of `list_network_status_v2`. -/
structure NodeStatus where
  network_statuses : List NetworkStatus
deriving DecidableEq

/-- Comma-separated rendering of the available network names. -/
def joinNames : List String → String
  | [] => ""
  | [n] => n
  | n :: m :: rest => n ++ ", " ++ joinNames (m :: rest)

/-- The configuration-error text for an unknown network: it names the
requested network and lists every available network name. -/
def networkNotFoundError (network_name : String) (available : List String) : String :=
  "Network " ++ (network_name ++
    (" not found in cluster. Available networks: " ++ joinNames available))

/-- All networks reported across every reporting node. -/
def allNetworks (nodes : List NodeStatus) : List NetworkStatus :=
  (nodes.map (fun nd => nd.network_statuses)).flatten

/-- Modelled from the spec: the network-name based address discovery of
AddressPool construction (spec section 4.1; the `network_name` based
`get_dst_ips` over `list_network_status_v2` is exercised by
`tests/test_target_cluster.py` but absent from the source snapshot,
which still keys on a numeric network id).  Aggregates the matching
networks' floating addresses across all reporting nodes; an unknown
network name is a configuration error naming the request and listing
all available names; an empty address set is a configuration error
naming the network. -/
def get_dst_ips_by_name (nodes : List NodeStatus) (network_name : String) :
    Except String (List String) :=
  let networks := allNetworks nodes
  let matching := networks.filter (fun ns => ns.name == network_name)
  if matching.isEmpty then
    Except.error (networkNotFoundError network_name (networks.map (fun ns => ns.name)))
  else
    let addrs := (matching.map (fun ns => ns.floating_addresses)).flatten
    if addrs.isEmpty then
      Except.error ("Network " ++ network_name ++ " has no Floating IPs available")
    else Except.ok addrs

end SpecModel

namespace TargetCluster

theorem minKey_all_ge (p : String × Nat) (l : List (String × Nat))
    (h : ∀ y ∈ l, p.2 ≤ y.2) : minKey p l = p := by
  induction l generalizing p with
  | nil => rfl
  | cons q rest ih =>
    have hq : ¬ q.2 < p.2 := not_lt.mpr (h q (by simp))
    show minKey (if q.2 < p.2 then q else p) rest = p
    rw [if_neg hq]
    exact ih p (fun y hy => h y (List.mem_cons_of_mem _ hy))

theorem minKey_first_min (p x : String × Nat) (l₁ l₂ : List (String × Nat))
    (h1 : ∀ y ∈ l₁, x.2 < y.2) (hp : x.2 < p.2) (h2 : ∀ y ∈ l₂, x.2 ≤ y.2) :
    minKey p (l₁ ++ x :: l₂) = x := by
  induction l₁ generalizing p with
  | nil =>
    show minKey (if x.2 < p.2 then x else p) l₂ = x
    rw [if_pos hp]
    exact minKey_all_ge x l₂ h2
  | cons z l₁' ih =>
    show minKey (if z.2 < p.2 then z else p) (l₁' ++ x :: l₂) = x
    by_cases hz : z.2 < p.2
    · rw [if_pos hz]
      exact ih z (fun y hy => h1 y (List.mem_cons_of_mem _ hy)) (h1 z (by simp))
    · rw [if_neg hz]
      exact ih p (fun y hy => h1 y (List.mem_cons_of_mem _ hy)) hp

/-- `minKey` returns the first element attaining the minimum: the dict
view splits into a strict-greater part `l₁`, the chosen entry, and a
greater-or-equal part `l₂`. -/
theorem minKey_split (p : String × Nat) (rest : List (String × Nat)) :
    ∃ l₁ x l₂, p :: rest = l₁ ++ x :: l₂ ∧ minKey p rest = x ∧
      (∀ y ∈ l₁, x.2 < y.2) ∧ (∀ y ∈ l₂, x.2 ≤ y.2) := by
  induction rest generalizing p with
  | nil => exact ⟨[], p, [], by simp, rfl, by simp, by simp⟩
  | cons q rest' ih =>
    by_cases hq : q.2 < p.2
    · obtain ⟨l₁, x, l₂, heq, hmin, h1, h2⟩ := ih q
      have hxq : x.2 ≤ q.2 := by
        cases l₁ with
        | nil =>
          have : q = x := by simpa using congrArg (fun l => l.head?) heq
          exact le_of_eq (congrArg Prod.snd this.symm)
        | cons a l₁' =>
          have ha : a = q := by
            have := congrArg (fun l => l.head?) heq
            simpa using this.symm
          exact le_of_lt (ha ▸ h1 a (by simp))
      refine ⟨p :: l₁, x, l₂, ?_, ?_, ?_, h2⟩
      · simpa using congrArg (fun l => p :: l) heq
      · show minKey (if q.2 < p.2 then q else p) rest' = x
        rw [if_pos hq]; exact hmin
      · intro y hy
        rcases List.mem_cons.mp hy with rfl | hy'
        · exact lt_of_le_of_lt hxq hq
        · exact h1 y hy'
    · obtain ⟨l₁, x, l₂, heq, hmin, h1, h2⟩ := ih p
      cases l₁ with
      | nil =>
        have hx : x = p := by simpa using (congrArg (fun l => l.head?) heq).symm
        have hl₂ : l₂ = rest' := by
          have := congrArg (fun l => l.tail) heq
          simpa [hx] using this.symm
        refine ⟨[], p, q :: rest', by simp, ?_, by simp, ?_⟩
        · show minKey (if q.2 < p.2 then q else p) rest' = p
          rw [if_neg hq]; rw [hmin, hx]
        · intro y hy
          rcases List.mem_cons.mp hy with rfl | hy'
          · exact not_lt.mp hq
          · have := h2 y (hl₂ ▸ hy')
            exact le_trans (le_of_eq (congrArg Prod.snd hx.symm)) this
      | cons a l₁' =>
        have ha : a = p := by simpa using (congrArg (fun l => l.head?) heq).symm
        have hrest : rest' = l₁' ++ x :: l₂ := by
          simpa using congrArg (fun l => l.tail) heq
        have hxp : x.2 < p.2 := ha ▸ h1 a (by simp)
        refine ⟨p :: q :: l₁', x, l₂, ?_, ?_, ?_, h2⟩
        · simp [hrest]
        · show minKey (if q.2 < p.2 then q else p) rest' = x
          rw [if_neg hq, hmin]
        · intro y hy
          rcases List.mem_cons.mp hy with rfl | hy'
          · exact hxp
          · rcases List.mem_cons.mp hy' with rfl | hy''
            · exact lt_of_lt_of_le hxp (not_lt.mp hq)
            · exact h1 y (ha ▸ List.mem_cons_of_mem _ hy'')

theorem bump_split (l₁ l₂ : List (String × Nat)) (x : String × Nat)
    (h1 : ∀ y ∈ l₁, y.1 ≠ x.1) (h2 : ∀ y ∈ l₂, y.1 ≠ x.1) :
    bump x.1 (l₁ ++ x :: l₂) = l₁ ++ (x.1, x.2 + 1) :: l₂ := by
  unfold bump
  rw [List.map_append, List.map_cons]
  have e1 : l₁.map (fun q => if q.1 = x.1 then (q.1, q.2 + 1) else q) = l₁ := by
    rw [List.map_congr_left (fun a ha => if_neg (h1 a ha))]
    exact List.map_id l₁
  have e2 : l₂.map (fun q => if q.1 = x.1 then (q.1, q.2 + 1) else q) = l₂ := by
    rw [List.map_congr_left (fun a ha => if_neg (h2 a ha))]
    exact List.map_id l₂
  rw [e1, e2, if_pos rfl]

end TargetCluster

namespace TargetCluster

theorem get_next_pattern (A : List String) (b : String) (B : List String) (q : Nat)
    (hnd : (A ++ b :: B).Nodup) :
    get_next_dst_ip (A.map (fun i => (i, q + 1)) ++ (b, q) :: B.map (fun i => (i, q))) =
      Except.ok (b, A.map (fun i => (i, q + 1)) ++ (b, q + 1) :: B.map (fun i => (i, q))) := by
  have hnd' := hnd
  rw [List.nodup_append] at hnd'
  have hbA : b ∉ A := fun h => hnd'.2.2 h (List.mem_cons_self _ _)
  have hbB : b ∉ B := (List.nodup_cons.mp hnd'.2.1).1
  have hkey1 : ∀ y ∈ A.map (fun i => (i, q + 1)), y.1 ≠ (b, q).1 := by
    intro y hy
    obtain ⟨i, hi, rfl⟩ := List.mem_map.mp hy
    exact fun he => hbA ((show i = b from he) ▸ hi)
  have hkey2 : ∀ y ∈ B.map (fun i => (i, q)), y.1 ≠ (b, q).1 := by
    intro y hy
    obtain ⟨i, hi, rfl⟩ := List.mem_map.mp hy
    exact fun he => hbB ((show i = b from he) ▸ hi)
  have hbump := bump_split (A.map (fun i => (i, q + 1))) (B.map (fun i => (i, q)))
    (b, q) hkey1 hkey2
  cases A with
  | nil =>
    have hmin : minKey (b, q) (B.map (fun i => (i, q))) = (b, q) := by
      apply minKey_all_ge
      intro y hy
      obtain ⟨i, _, rfl⟩ := List.mem_map.mp hy
      exact le_refl q
    simp only [List.map_nil, List.nil_append] at hbump ⊢
    show Except.ok ((minKey (b, q) (B.map fun i => (i, q))).1,
      bump (minKey (b, q) (B.map fun i => (i, q))).1 ((b, q) :: B.map fun i => (i, q))) = _
    rw [hmin]
    show Except.ok (b, bump b ((b, q) :: B.map fun i => (i, q))) = _
    rw [hbump]
  | cons a A' =>
    have hmin : minKey (a, q + 1)
        (A'.map (fun i => (i, q + 1)) ++ (b, q) :: B.map (fun i => (i, q))) = (b, q) := by
      apply minKey_first_min
      · intro y hy
        obtain ⟨i, _, rfl⟩ := List.mem_map.mp hy
        exact Nat.lt_succ_self q
      · exact Nat.lt_succ_self q
      · intro y hy
        obtain ⟨i, _, rfl⟩ := List.mem_map.mp hy
        exact le_refl q
    simp only [List.map_cons, List.cons_append]
    show Except.ok ((minKey (a, q + 1)
        (A'.map (fun i => (i, q + 1)) ++ (b, q) :: B.map fun i => (i, q))).1, _) = _
    rw [hmin]
    have : (a, q + 1) :: (A'.map (fun i => (i, q + 1)) ++ (b, q) :: B.map fun i => (i, q)) =
        (a :: A').map (fun i => (i, q + 1)) ++ (b, q) :: B.map (fun i => (i, q)) := by
      simp
    rw [this, hbump]
    rfl

theorem iterateNext_snoc (n : Nat) (s s₁ s₂ : List (String × Nat)) (a : String)
    (h1 : iterateNext n s = Except.ok s₁)
    (h2 : get_next_dst_ip s₁ = Except.ok (a, s₂)) :
    iterateNext (n + 1) s = Except.ok s₂ := by
  induction n generalizing s with
  | zero =>
    have hs : s = s₁ := by simpa [iterateNext] using h1
    subst hs
    simp [iterateNext, h2]
  | succ m ih =>
    cases h : get_next_dst_ip s with
    | error e =>
      rw [show iterateNext (m + 1) s = Except.error e by simp [iterateNext, h]] at h1
      exact absurd h1 (by simp)
    | ok pr =>
      cases pr with
      | mk x t =>
        have h1' : iterateNext m t = Except.ok s₁ := by
          rw [show iterateNext (m + 1) s = iterateNext m t by simp [iterateNext, h]] at h1
          exact h1
        calc iterateNext (m + 1 + 1) s = iterateNext (m + 1) t := by
              simp [iterateNext, h]
        _ = Except.ok s₂ := ih t h1'

theorem iterate_pattern (ips : List String) (hne : ips ≠ []) (hnd : ips.Nodup) (n : Nat) :
    ∃ A B, ips = A ++ B ∧ A.length = n % ips.length ∧
      iterateNext n (initLoad ips) =
        Except.ok (A.map (fun i => (i, n / ips.length + 1)) ++
          B.map (fun i => (i, n / ips.length))) := by
  have hk : 0 < ips.length := List.length_pos.mpr hne
  induction n with
  | zero =>
    refine ⟨[], ips, by simp, by simp, ?_⟩
    simp [iterateNext, initLoad, Nat.zero_div]
  | succ n ih =>
    obtain ⟨A, B, hip, hlen, hit⟩ := ih
    have hr : n % ips.length < ips.length := Nat.mod_lt _ hk
    have hABlen : A.length + B.length = ips.length := by
      rw [hip, List.length_append]
    have hB : B ≠ [] := by
      intro h
      rw [h] at hABlen
      simp at hABlen
      omega
    obtain ⟨b, B', rfl⟩ := List.exists_cons_of_ne_nil hB
    have hnd' : (A ++ b :: B').Nodup := hip ▸ hnd
    have hshape : (b :: B').map (fun i => (i, n / ips.length)) =
        (b, n / ips.length) :: B'.map (fun i => (i, n / ips.length)) := by simp
    rw [hshape] at hit
    have hit1 : iterateNext (n + 1) (initLoad ips) =
        Except.ok (A.map (fun i => (i, n / ips.length + 1)) ++
          (b, n / ips.length + 1) :: B'.map (fun i => (i, n / ips.length))) :=
      iterateNext_snoc n _ _ _ b hit (get_next_pattern A b B' (n / ips.length) hnd')
    have hdm := Nat.div_add_mod n ips.length
    have hcomm : (n / ips.length) * ips.length = ips.length * (n / ips.length) :=
      Nat.mul_comm _ _
    by_cases hcase : n % ips.length + 1 < ips.length
    · have hmod : (n + 1) % ips.length = n % ips.length + 1 := by
        have h1 : n + 1 = (n % ips.length + 1) + (n / ips.length) * ips.length := by
          omega
        rw [h1, Nat.add_mul_mod_self_right, Nat.mod_eq_of_lt hcase]
      have hdiv : (n + 1) / ips.length = n / ips.length := by
        have h1 : n + 1 = (n % ips.length + 1) + (n / ips.length) * ips.length := by
          omega
        rw [h1, Nat.add_mul_div_right _ _ hk, Nat.div_eq_of_lt hcase, Nat.zero_add]
      refine ⟨A ++ [b], B', by simp [hip], ?_, ?_⟩
      · simp [List.length_append, hlen, hmod]
      · rw [hdiv, hit1]
        simp
    · have heq : n % ips.length + 1 = ips.length := by omega
      have hB' : B' = [] := by
        have hl : A.length + (B'.length + 1) = ips.length := by
          simpa using hABlen
        have : B'.length = 0 := by omega
        exact List.eq_nil_of_length_eq_zero this
      have hmod : (n + 1) % ips.length = 0 := by
        have h1 : n + 1 = (n / ips.length + 1) * ips.length := by
          have : (n / ips.length + 1) * ips.length =
              n / ips.length * ips.length + ips.length := by ring
          omega
        rw [h1, Nat.mul_mod_left]
      have hdiv : (n + 1) / ips.length = n / ips.length + 1 := by
        have h1 : n + 1 = (n / ips.length + 1) * ips.length := by
          have : (n / ips.length + 1) * ips.length =
              n / ips.length * ips.length + ips.length := by ring
          omega
        rw [h1, Nat.mul_div_cancel _ hk]
      refine ⟨[], ips, by simp, by simp [hmod], ?_⟩
      rw [hdiv, hit1]
      subst hB'
      have hips : ips = A ++ [b] := by simpa using hip
      rw [hips]
      simp

theorem sum_map_pair_snd (l : List String) (c : Nat) :
    ((l.map (fun i => (i, c))).map Prod.snd).sum = l.length * c := by
  induction l with
  | nil => simp
  | cons a l ih =>
    simp only [List.map_cons, List.sum_cons, ih, List.length_cons]
    ring

theorem ceil_div_of_mod_pos {n k : Nat} (hk : 0 < k) (hr : 0 < n % k) :
    (n + k - 1) / k = n / k + 1 := by
  obtain ⟨m, r, hrlt, hrpos, rfl⟩ : ∃ m r, r < k ∧ 0 < r ∧ n = k * m + r := by
    refine ⟨n / k, n % k, Nat.mod_lt _ hk, hr, (Nat.div_add_mod n k).symm⟩
  have hms : k * (m + 1) = k * m + k := Nat.mul_succ k m
  have h2 : k * m + r + k - 1 = k * (m + 1) + (r - 1) := by omega
  rw [h2, Nat.mul_add_div hk, Nat.mul_add_div hk,
    Nat.div_eq_of_lt hrlt, Nat.div_eq_of_lt (show r - 1 < k by omega)]

end TargetCluster

/-- C1: for every `TargetCluster` constructed over `k ≥ 1` distinct
addresses (each load initialized to zero by `__init__`), after any `n`
successive calls to `get_next_dst_ip` every address is still present,
each address's final load is either `⌊n/k⌋` or `⌈n/k⌉` (the latter
written `(n + k - 1) / k`), and the loads sum to `n`. -/
theorem targetCluster_loads_balanced (ips : List String) (n : Nat)
    (hne : ips ≠ []) (hnd : ips.Nodup) :
    ∃ s, TargetCluster.iterateNext n (TargetCluster.initLoad ips) = Except.ok s ∧
      s.map Prod.fst = ips ∧
      (∀ p ∈ s, p.2 = n / ips.length ∨ p.2 = (n + ips.length - 1) / ips.length) ∧
      (s.map Prod.snd).sum = n := by
  obtain ⟨A, B, hip, hlen, hit⟩ := TargetCluster.iterate_pattern ips hne hnd n
  have hk : 0 < ips.length := List.length_pos.mpr hne
  refine ⟨_, hit, ?_, ?_, ?_⟩
  · rw [List.map_append, List.map_map, List.map_map]
    have e1 : (Prod.fst ∘ fun i => (i, n / ips.length + 1) : String → String) = id := rfl
    have e2 : (Prod.fst ∘ fun i => (i, n / ips.length) : String → String) = id := rfl
    rw [e1, e2, List.map_id, List.map_id, ← hip]
  · intro p hp
    rcases List.mem_append.mp hp with h | h
    · obtain ⟨i, hi, rfl⟩ := List.mem_map.mp h
      right
      have hrpos : 0 < n % ips.length := by
        have hApos : 0 < A.length := List.length_pos.mpr (List.ne_nil_of_mem hi)
        omega
      rw [TargetCluster.ceil_div_of_mod_pos hk hrpos]
    · obtain ⟨i, hi, rfl⟩ := List.mem_map.mp h
      left; rfl
  · rw [List.map_append, List.sum_append,
      TargetCluster.sum_map_pair_snd, TargetCluster.sum_map_pair_snd]
    have h2 : A.length + B.length = ips.length := by
      rw [hip, List.length_append]
    have hdm : ips.length * (n / ips.length) + n % ips.length = n :=
      Nat.div_add_mod n ips.length
    have hstep : A.length * (n / ips.length + 1) =
        A.length * (n / ips.length) + A.length := Nat.mul_succ _ _
    have hsum : A.length * (n / ips.length) + B.length * (n / ips.length) =
        ips.length * (n / ips.length) := by
      rw [← Nat.add_mul, h2]
    omega

/-- Witness for C1 at a concrete pool of two addresses and four calls. -/
theorem targetCluster_loads_balanced_witness :
    ∃ s, TargetCluster.iterateNext 4
        (TargetCluster.initLoad ["10.1.1.20", "10.1.1.21"]) = Except.ok s ∧
      s.map Prod.fst = ["10.1.1.20", "10.1.1.21"] ∧
      (∀ p ∈ s,
        p.2 = 4 / (["10.1.1.20", "10.1.1.21"] : List String).length ∨
        p.2 = (4 + (["10.1.1.20", "10.1.1.21"] : List String).length - 1) /
          (["10.1.1.20", "10.1.1.21"] : List String).length) ∧
      (s.map Prod.snd).sum = 4 :=
  targetCluster_loads_balanced ["10.1.1.20", "10.1.1.21"] 4 (by decide) (by decide)

/-- C2: on an empty pool `get_next_dst_ip` fails with the
configuration error of the source; on a non-empty pool (with the
distinct keys of a Python dict) it returns an address of minimal load,
the first such address in stored order (every earlier entry has a
strictly greater load), increments exactly that address's load by one
and leaves every other entry, and the key sequence, unchanged. -/
theorem get_next_dst_ip_least_loaded (s : List (String × Nat)) :
    (s = [] →
      TargetCluster.get_next_dst_ip s =
        Except.error "No destination IPs available for load balancing") ∧
    (s ≠ [] → (TargetCluster.keysOf s).Nodup →
      ∃ l₁ x l₂, s = l₁ ++ x :: l₂ ∧
        (∀ y ∈ l₁, x.2 < y.2) ∧ (∀ y ∈ s, x.2 ≤ y.2) ∧
        TargetCluster.get_next_dst_ip s =
          Except.ok (x.1, l₁ ++ (x.1, x.2 + 1) :: l₂)) := by
  constructor
  · intro h; subst h; rfl
  · intro hne hnd
    obtain ⟨p, rest, rfl⟩ := List.exists_cons_of_ne_nil hne
    obtain ⟨l₁, x, l₂, heq, hmin, h1, h2⟩ := TargetCluster.minKey_split p rest
    have hndkeys : (TargetCluster.keysOf (l₁ ++ x :: l₂)).Nodup := heq ▸ hnd
    have hsplit : TargetCluster.keysOf (l₁ ++ x :: l₂) =
        TargetCluster.keysOf l₁ ++ x.1 :: TargetCluster.keysOf l₂ := by
      simp [TargetCluster.keysOf]
    rw [hsplit, List.nodup_append] at hndkeys
    have hk1 : ∀ y ∈ l₁, y.1 ≠ x.1 := by
      intro y hy he
      exact hndkeys.2.2 (List.mem_map_of_mem _ hy)
        (by rw [he]; exact List.mem_cons_self _ _)
    have hk2 : ∀ y ∈ l₂, y.1 ≠ x.1 := by
      intro y hy he
      exact (List.nodup_cons.mp hndkeys.2.1).1
        (by rw [← he]; exact List.mem_map_of_mem _ hy)
    refine ⟨l₁, x, l₂, heq, h1, ?_, ?_⟩
    · intro y hy
      rw [heq] at hy
      rcases List.mem_append.mp hy with hy1 | hy2
      · exact le_of_lt (h1 y hy1)
      · rcases List.mem_cons.mp hy2 with rfl | hy3
        · exact le_refl _
        · exact h2 y hy3
    · show Except.ok ((TargetCluster.minKey p rest).1,
        TargetCluster.bump (TargetCluster.minKey p rest).1 (p :: rest)) = _
      rw [hmin, heq, TargetCluster.bump_split l₁ l₂ x hk1 hk2]

/-- Witness for C2 at a concrete two-address pool with a unique
minimum in second position. -/
theorem get_next_dst_ip_least_loaded_witness :
    ∃ l₁ x l₂,
      ([("10.1.1.20", 2), ("10.1.1.21", 1)] : List (String × Nat)) = l₁ ++ x :: l₂ ∧
      (∀ y ∈ l₁, x.2 < y.2) ∧
      (∀ y ∈ ([("10.1.1.20", 2), ("10.1.1.21", 1)] : List (String × Nat)), x.2 ≤ y.2) ∧
      TargetCluster.get_next_dst_ip [("10.1.1.20", 2), ("10.1.1.21", 1)] =
        Except.ok (x.1, l₁ ++ (x.1, x.2 + 1) :: l₂) :=
  (get_next_dst_ip_least_loaded [("10.1.1.20", 2), ("10.1.1.21", 1)]).2
    (by decide) (by decide)

theorem acceptLoop_eq_filterMap (auth : Option String → Except String Unit)
    (l : List TargetCluster.Relationship) :
    TargetCluster.acceptLoop auth l =
      l.filterMap (fun rel =>
        match auth rel.id with
        | Except.ok _ => some (TargetCluster.mkAccepted rel)
        | Except.error _ => none) := by
  induction l with
  | nil => rfl
  | cons r rest ih =>
    cases h : auth r.id with
    | ok u => simp [TargetCluster.acceptLoop, List.filterMap_cons, h, ih]
    | error e => simp [TargetCluster.acceptLoop, List.filterMap_cons, h, ih]

/-- C7: `accept_pending_replications` is a total function of the
listing and the authorization oracle (the source wraps each `authorize`
in `try/except Exception`, so a per-item failure never escapes): every
pending candidate is attempted independently and the returned value is
exactly the list of successfully authorized relationships, each
carrying its id, target path and remote (source) cluster name. -/
theorem accept_pending_returns_successes
    (auth : Option String → Except String Unit)
    (rels : List TargetCluster.Relationship) :
    TargetCluster.accept_pending_replications auth rels =
      (rels.filter (fun rel => TargetCluster.isPending rel)).filterMap
        (fun rel =>
          match auth rel.id with
          | Except.ok _ => some (TargetCluster.mkAccepted rel)
          | Except.error _ => none) :=
  acceptLoop_eq_filterMap auth _

/-- C10: a destination record with neither a `state` nor a
`relationship_state` field is classified as not pending (both fields
default to the empty string in the check), so it is skipped without an
error: it triggers no `authorize` call and leaves the accepted list
unchanged. -/
theorem missing_state_not_pending (r : TargetCluster.Relationship)
    (auth : Option String → Except String Unit)
    (rest : List TargetCluster.Relationship)
    (hs : r.state = none) (hrs : r.relationship_state = none) :
    TargetCluster.isPending r = false ∧
    TargetCluster.authorizeCalls (r :: rest) = TargetCluster.authorizeCalls rest ∧
    TargetCluster.accept_pending_replications auth (r :: rest) =
      TargetCluster.accept_pending_replications auth rest := by
  have hp : TargetCluster.isPending r = false := by
    unfold TargetCluster.isPending
    rw [hs, hrs]
    decide
  refine ⟨hp, ?_, ?_⟩
  · simp [TargetCluster.authorizeCalls, List.filter_cons, hp]
  · simp [TargetCluster.accept_pending_replications, List.filter_cons, hp]

/-- Witness for C10 at a concrete record lacking both state fields. -/
theorem missing_state_not_pending_witness :
    TargetCluster.isPending
      ⟨some "id-1", none, none, some "src-cluster", some "/a", some "/b"⟩ = false ∧
    TargetCluster.authorizeCalls
      [⟨some "id-1", none, none, some "src-cluster", some "/a", some "/b"⟩] =
      TargetCluster.authorizeCalls [] ∧
    TargetCluster.accept_pending_replications (fun _ => Except.ok ())
      [⟨some "id-1", none, none, some "src-cluster", some "/a", some "/b"⟩] =
      TargetCluster.accept_pending_replications (fun _ => Except.ok ()) [] :=
  missing_state_not_pending
    ⟨some "id-1", none, none, some "src-cluster", some "/a", some "/b"⟩
    (fun _ => Except.ok ()) [] rfl rfl

theorem dictInsert_keys_mem (cache : List (Option String × ReplicationManager.CacheEntry))
    (k : Option String) (v : ReplicationManager.CacheEntry) (j : Option String) :
    j ∈ ReplicationManager.cacheKeys (ReplicationManager.dictInsert cache k v) ↔
      j ∈ ReplicationManager.cacheKeys cache ∨ j = k := by
  unfold ReplicationManager.dictInsert
  by_cases h : cache.any (fun p => p.1 == k)
  · rw [if_pos h]
    have hkeys : ReplicationManager.cacheKeys
        (cache.map (fun p => if p.1 = k then (k, v) else p)) =
        ReplicationManager.cacheKeys cache := by
      unfold ReplicationManager.cacheKeys
      rw [List.map_map]
      apply List.map_congr_left
      intro p _
      by_cases hpk : p.1 = k
      · show (if p.1 = k then (k, v) else p).1 = p.1
        rw [if_pos hpk, hpk]
      · show (if p.1 = k then (k, v) else p).1 = p.1
        rw [if_neg hpk]
    rw [hkeys]
    constructor
    · exact Or.inl
    · rintro (h1 | rfl)
      · exact h1
      · obtain ⟨p, hp, hpk⟩ := List.any_eq_true.mp h
        have hpe : p.1 = j := by simpa using hpk
        exact hpe ▸ List.mem_map_of_mem _ hp
  · rw [if_neg h]
    unfold ReplicationManager.cacheKeys
    rw [List.map_append]
    simp

/-- C9 counterexample: at a pre-populated cache holding key `/old` and
a fetched listing whose only source path is `/new`, the post-call key
set still contains `/old`, which is absent from the listing — so the
key set does not equal the fetched source-path set. -/
theorem populate_keeps_stale_key :
    (some "/old") ∈ ReplicationManager.cacheKeys
      (ReplicationManager.populate_replication_cache
        [(some "/old", ⟨none, none, none⟩)]
        [⟨some "rid-1", some "/new", some "1", some "10.1.1.20"⟩]) ∧
    (some "/old") ∉
      ([⟨some "rid-1", some "/new", some "1", some "10.1.1.20"⟩] :
        List ReplicationManager.SourceRel).map (fun r => r.source_root_path) := by
  decide

/-- C9 (amended): `populate_replication_cache` stores every fetched
record keyed by its source path, overwriting the entry of a key already
present but never removing prior entries: the post-call key set is the
union of the prior key set and the fetched source-path set (so it
equals the fetched set exactly when the cache starts empty). -/
theorem populate_cache_keys
    (cache : List (Option String × ReplicationManager.CacheEntry))
    (rels : List ReplicationManager.SourceRel) (j : Option String) :
    j ∈ ReplicationManager.cacheKeys
        (ReplicationManager.populate_replication_cache cache rels) ↔
      j ∈ ReplicationManager.cacheKeys cache ∨
        j ∈ rels.map (fun r => r.source_root_path) := by
  induction rels generalizing cache with
  | nil => simp [ReplicationManager.populate_replication_cache]
  | cons r rest ih =>
    simp only [ReplicationManager.populate_replication_cache, List.foldl_cons] at ih ⊢
    rw [ih, dictInsert_keys_mem]
    simp only [List.map_cons, List.mem_cons]
    tauto

/-- C4: `clean_replications` deletes exactly the cached entries whose
source path starts with the base path and passes the configured filter
— the deleted ids are the second components of the filtered cache, in
cache order — and returns the count of entries it deleted. -/
theorem clean_deletes_exactly (basepath : String)
    (filteri filtere : Option (List String)) (cache : List (String × String)) :
    SpecModel.clean_replications basepath filteri filtere cache =
      ((cache.filter (fun pr =>
          basepath.isPrefixOf pr.1 && SpecModel.matchesFilter filteri filtere pr.1)).map
        (fun pr => pr.2),
       (cache.filter (fun pr =>
          basepath.isPrefixOf pr.1 && SpecModel.matchesFilter filteri filtere pr.1)).length) := by
  induction cache with
  | nil => rfl
  | cons pr rest ih =>
    obtain ⟨path, rid⟩ := pr
    cases h : basepath.isPrefixOf path && SpecModel.matchesFilter filteri filtere path with
    | true => simp [SpecModel.clean_replications, List.filter_cons, h, ih]
    | false => simp [SpecModel.clean_replications, List.filter_cons, h, ih]

/-- C6: a configuration supplying both a non-empty include filter set
and a non-empty exclude filter set is rejected by `validate_args` with
a configuration error; the check precedes client creation, which is
the first I/O, so no collaborator-API call occurs (the error
constructor carries no clients). -/
theorem both_filters_rejected (args : SpecModel.Args) (l1 l2 : List String)
    (h1 : args.filteri = some l1) (h2 : l1 ≠ [])
    (h3 : args.filtere = some l2) (h4 : l2 ≠ []) :
    SpecModel.validate_args args =
      Except.error
        "Cannot use filteri and filtere together: choose include or exclude, not both" := by
  unfold SpecModel.validate_args
  have hc : args.filteri.getD [] ≠ [] ∧ args.filtere.getD [] ≠ [] := by
    rw [h1, h3]
    exact ⟨h2, h4⟩
  rw [if_pos hc]

/-- Witness for C6 at a concrete argument record carrying both
filters. -/
theorem both_filters_rejected_witness :
    SpecModel.validate_args
      ⟨"create", some "src.example.com", some "admin", some "pw",
        some "dst.example.com", some "admin", some "pw",
        some ["prod"], some ["test"]⟩ =
      Except.error
        "Cannot use filteri and filtere together: choose include or exclude, not both" :=
  both_filters_rejected
    ⟨"create", some "src.example.com", some "admin", some "pw",
      some "dst.example.com", some "admin", some "pw",
      some ["prod"], some ["test"]⟩
    ["prod"] ["test"] rfl (by decide) rfl (by decide)

theorem joinNames_mem (a : String) (l : List String) (ha : a ∈ l) :
    ∃ p q, SpecModel.joinNames l = p ++ (a ++ q) := by
  induction l with
  | nil => cases ha
  | cons x rest ih =>
    cases rest with
    | nil =>
      have hx : a = x := by simpa using ha
      subst hx
      refine ⟨"", "", ?_⟩
      show a = "" ++ (a ++ "")
      rw [String.append_empty, String.empty_append]
    | cons y rest' =>
      rcases List.mem_cons.mp ha with rfl | ha'
      · refine ⟨"", ", " ++ SpecModel.joinNames (y :: rest'), ?_⟩
        show a ++ ", " ++ SpecModel.joinNames (y :: rest') =
          "" ++ (a ++ (", " ++ SpecModel.joinNames (y :: rest')))
        rw [String.empty_append, String.append_assoc]
      · obtain ⟨p, q, hpq⟩ := ih ha'
        refine ⟨x ++ ", " ++ p, q, ?_⟩
        show x ++ ", " ++ SpecModel.joinNames (y :: rest') = x ++ ", " ++ p ++ (a ++ q)
        rw [hpq, ← String.append_assoc]

/-- C8: when the requested network name occurs in no reported network,
the name-based address discovery fails with a configuration error
whose message contains the requested name and every available network
name (containment stated as a prefix/suffix decomposition of the
message). -/
theorem network_not_found_names_all (nodes : List SpecModel.NodeStatus)
    (network_name : String)
    (h : ∀ ns ∈ SpecModel.allNetworks nodes, ns.name ≠ network_name) :
    ∃ msg, SpecModel.get_dst_ips_by_name nodes network_name = Except.error msg ∧
      (∃ p q, msg = p ++ (network_name ++ q)) ∧
      (∀ ns ∈ SpecModel.allNetworks nodes, ∃ p q, msg = p ++ (ns.name ++ q)) := by
  have hfil : (SpecModel.allNetworks nodes).filter
      (fun ns => ns.name == network_name) = [] := by
    rw [List.filter_eq_nil_iff]
    intro ns hns
    simpa using h ns hns
  refine ⟨SpecModel.networkNotFoundError network_name
      ((SpecModel.allNetworks nodes).map (fun ns => ns.name)), ?_, ?_, ?_⟩
  · simp [SpecModel.get_dst_ips_by_name, hfil]
  · exact ⟨"Network ", " not found in cluster. Available networks: " ++
      SpecModel.joinNames ((SpecModel.allNetworks nodes).map (fun ns => ns.name)), rfl⟩
  · intro ns hns
    obtain ⟨p, q, hpq⟩ :=
      joinNames_mem ns.name _ (List.mem_map_of_mem (fun ns => ns.name) hns)
    refine ⟨"Network " ++ (network_name ++
      (" not found in cluster. Available networks: " ++ p)), q, ?_⟩
    unfold SpecModel.networkNotFoundError
    rw [hpq]
    simp only [String.append_assoc]

/-- Witness for C8: requesting `nonexistent` against a single node
reporting only `Default`. -/
theorem network_not_found_names_all_witness :
    ∃ msg, SpecModel.get_dst_ips_by_name
        [⟨[⟨"Default", ["10.0.0.1"]⟩]⟩] "nonexistent" = Except.error msg ∧
      (∃ p q, msg = p ++ ("nonexistent" ++ q)) ∧
      (∀ ns ∈ SpecModel.allNetworks [⟨[⟨"Default", ["10.0.0.1"]⟩]⟩],
        ∃ p q, msg = p ++ (ns.name ++ q)) :=
  network_not_found_names_all [⟨[⟨"Default", ["10.0.0.1"]⟩]⟩] "nonexistent" (by decide)

theorem create_loop_target_eq (oracle : String → String → String → Except String String)
    (cache : List String) (dstp : Option String)
    (filteri filtere : Option (List String)) :
    ∀ (entries : List SpecModel.DirEntry) (pool : List (String × Nat))
      (res : List SpecModel.CreatedRec × List (String × Nat)),
      SpecModel.create_loop oracle cache dstp filteri filtere entries pool =
        Except.ok res →
      ∀ c ∈ res.1, c.target_path = SpecModel.compute_dst_path dstp c.source_path := by
  intro entries
  induction entries with
  | nil =>
    intro pool res h c hc
    obtain rfl : (([], pool) :
        List SpecModel.CreatedRec × List (String × Nat)) = res := by
      simpa [SpecModel.create_loop] using h
    cases hc
  | cons e rest ih =>
    intro pool res h c hc
    by_cases ht : e.type = "FS_FILE_TYPE_DIRECTORY"
    · by_cases hf : SpecModel.matchesFilter filteri filtere e.path = true
      · by_cases hcm : e.path ∈ cache
        · rw [show SpecModel.create_loop oracle cache dstp filteri filtere
              (e :: rest) pool =
              SpecModel.create_loop oracle cache dstp filteri filtere rest pool from by
            simp [SpecModel.create_loop, ht, hf, hcm]] at h
          exact ih pool res h c hc
        · cases hg : TargetCluster.get_next_dst_ip pool with
          | error err =>
            rw [show SpecModel.create_loop oracle cache dstp filteri filtere
                (e :: rest) pool = Except.error err from by
              simp [SpecModel.create_loop, ht, hf, hcm, hg]] at h
            exact absurd h (by simp)
          | ok pr =>
            obtain ⟨addr, pool'⟩ := pr
            cases ho : oracle addr e.path (SpecModel.compute_dst_path dstp e.path) with
            | error err =>
              rw [show SpecModel.create_loop oracle cache dstp filteri filtere
                  (e :: rest) pool =
                  SpecModel.create_loop oracle cache dstp filteri filtere rest pool' from by
                simp [SpecModel.create_loop, ht, hf, hcm, hg, ho]] at h
              exact ih pool' res h c hc
            | ok rid =>
              cases hrec : SpecModel.create_loop oracle cache dstp filteri filtere
                  rest pool' with
              | error err =>
                rw [show SpecModel.create_loop oracle cache dstp filteri filtere
                    (e :: rest) pool = Except.error err from by
                  simp [SpecModel.create_loop, ht, hf, hcm, hg, ho, hrec]] at h
                exact absurd h (by simp)
              | ok r2 =>
                obtain ⟨cs, pfin⟩ := r2
                rw [show SpecModel.create_loop oracle cache dstp filteri filtere
                    (e :: rest) pool =
                    Except.ok
                      (⟨rid, addr, e.path, SpecModel.compute_dst_path dstp e.path⟩ :: cs,
                        pfin) from by
                  simp [SpecModel.create_loop, ht, hf, hcm, hg, ho, hrec]] at h
                obtain rfl :
                    ((⟨rid, addr, e.path, SpecModel.compute_dst_path dstp e.path⟩ :: cs,
                      pfin) :
                      List SpecModel.CreatedRec × List (String × Nat)) = res := by
                  simpa using h
                rcases List.mem_cons.mp hc with rfl | hc'
                · rfl
                · exact ih pool' (cs, pfin) hrec c hc'
      · rw [show SpecModel.create_loop oracle cache dstp filteri filtere
            (e :: rest) pool =
            SpecModel.create_loop oracle cache dstp filteri filtere rest pool from by
          simp [SpecModel.create_loop, ht, hf]] at h
        exact ih pool res h c hc
    · rw [show SpecModel.create_loop oracle cache dstp filteri filtere
          (e :: rest) pool =
          SpecModel.create_loop oracle cache dstp filteri filtere rest pool from by
        simp [SpecModel.create_loop, ht]] at h
      exact ih pool res h c hc

/-- C5: in a successful `create_replications` run, every created
relationship's destination path is the source path when the prefix is
`None`, the empty string or exactly `/`, and otherwise the literal
concatenation of the prefix with the source path, with no slash
normalization. -/
theorem create_dst_path_computation
    (oracle : String → String → String → Except String String)
    (cache : List String) (dstp : Option String)
    (filteri filtere : Option (List String)) (entries : List SpecModel.DirEntry)
    (pool : List (String × Nat))
    (res : List SpecModel.CreatedRec × List (String × Nat))
    (h : SpecModel.create_replications oracle cache dstp filteri filtere entries pool =
      Except.ok res) :
    ∀ c ∈ res.1,
      c.target_path =
        match dstp with
        | none => c.source_path
        | some pfx =>
          if pfx = "" ∨ pfx = "/" then c.source_path else pfx ++ c.source_path := by
  intro c hc
  have hcomp := create_loop_target_eq oracle cache dstp filteri filtere
    (entries.drop 1) pool res h c hc
  rw [hcomp]
  cases dstp with
  | none => rfl
  | some pfx => rfl

/-- Witness for C5 at a one-directory walk with prefix `/backup`. -/
theorem create_dst_path_computation_witness :
    (⟨"rid-1", "10.1.1.20", "/data/a", "/backup/data/a"⟩ :
        SpecModel.CreatedRec).target_path =
      match (some "/backup" : Option String) with
      | none =>
        (⟨"rid-1", "10.1.1.20", "/data/a", "/backup/data/a"⟩ :
          SpecModel.CreatedRec).source_path
      | some pfx =>
        if pfx = "" ∨ pfx = "/" then
          (⟨"rid-1", "10.1.1.20", "/data/a", "/backup/data/a"⟩ :
            SpecModel.CreatedRec).source_path
        else pfx ++ (⟨"rid-1", "10.1.1.20", "/data/a", "/backup/data/a"⟩ :
          SpecModel.CreatedRec).source_path :=
  create_dst_path_computation (fun _ _ _ => Except.ok "rid-1") [] (some "/backup")
    none none
    [⟨"/data", "FS_FILE_TYPE_DIRECTORY"⟩, ⟨"/data/a", "FS_FILE_TYPE_DIRECTORY"⟩]
    [("10.1.1.20", 0)]
    ([⟨"rid-1", "10.1.1.20", "/data/a", "/backup/data/a"⟩], [("10.1.1.20", 1)])
    (by rfl)
    ⟨"rid-1", "10.1.1.20", "/data/a", "/backup/data/a"⟩ (by simp)

theorem create_loop_fail_filter (oracle : String → String → String → Except String String)
    (cache : List String) (dstp : Option String)
    (filteri filtere : Option (List String)) (p : String) :
    ∀ (entries : List SpecModel.DirEntry) (pool : List (String × Nat)),
      SpecModel.create_loop
          (fun addr src tgt =>
            if src = p then Except.error "simulated create failure"
            else oracle addr src tgt)
          cache dstp filteri filtere entries pool =
        (SpecModel.create_loop oracle cache dstp filteri filtere entries pool).map
          (fun res => (res.1.filter (fun c => c.source_path != p), res.2)) := by
  intro entries
  induction entries with
  | nil =>
    intro pool
    simp [SpecModel.create_loop, Except.map]
  | cons e rest ih =>
    intro pool
    by_cases ht : e.type = "FS_FILE_TYPE_DIRECTORY"
    · by_cases hf : SpecModel.matchesFilter filteri filtere e.path = true
      · by_cases hcm : e.path ∈ cache
        · simp only [SpecModel.create_loop, if_pos ht, if_pos hf, if_pos hcm]
          exact ih pool
        · cases hg : TargetCluster.get_next_dst_ip pool with
          | error err =>
            simp [SpecModel.create_loop, ht, hf, hcm, hg, Except.map]
          | ok pr =>
            obtain ⟨addr, pool'⟩ := pr
            by_cases hsrc : e.path = p
            · subst hsrc
              cases ho : oracle addr e.path (SpecModel.compute_dst_path dstp e.path) with
              | ok rid =>
                cases hrec : SpecModel.create_loop oracle cache dstp filteri filtere
                    rest pool' with
                | error err =>
                  simp [SpecModel.create_loop, ht, hf, hcm, hg, ho, hrec,
                    ih pool', Except.map]
                | ok r2 =>
                  simp [SpecModel.create_loop, ht, hf, hcm, hg, ho, hrec,
                    ih pool', Except.map, List.filter_cons]
              | error err =>
                simp [SpecModel.create_loop, ht, hf, hcm, hg, ho,
                  ih pool', Except.map]
            · cases ho : oracle addr e.path (SpecModel.compute_dst_path dstp e.path) with
              | ok rid =>
                cases hrec : SpecModel.create_loop oracle cache dstp filteri filtere
                    rest pool' with
                | error err =>
                  simp [SpecModel.create_loop, ht, hf, hcm, hg, hsrc, ho, hrec,
                    ih pool', Except.map]
                | ok r2 =>
                  simp [SpecModel.create_loop, ht, hf, hcm, hg, hsrc, ho, hrec,
                    ih pool', Except.map, List.filter_cons]
              | error err =>
                simp [SpecModel.create_loop, ht, hf, hcm, hg, hsrc, ho,
                  ih pool', Except.map]
      · simp only [SpecModel.create_loop, if_pos ht, if_neg hf]
        exact ih pool
    · simp only [SpecModel.create_loop, if_neg ht]
      exact ih pool

/-- C3: a failure of the create call for one directory entry does not
halt processing of subsequent entries and is not retried.  Turning the
create oracle into one that fails on source path `p` (and is otherwise
unchanged) yields exactly the same run — same pool evolution, same
fatal-error behavior, every other qualifying entry still processed and
recorded — except that records for `p` are omitted from the end-of-run
tally; the error itself is only logged, which carries no data flow. -/
theorem create_failure_isolated
    (oracle : String → String → String → Except String String)
    (cache : List String) (dstp : Option String)
    (filteri filtere : Option (List String)) (entries : List SpecModel.DirEntry)
    (pool : List (String × Nat)) (p : String) :
    SpecModel.create_replications
        (fun addr src tgt =>
          if src = p then Except.error "simulated create failure"
          else oracle addr src tgt)
        cache dstp filteri filtere entries pool =
      (SpecModel.create_replications oracle cache dstp filteri filtere entries pool).map
        (fun res => (res.1.filter (fun c => c.source_path != p), res.2)) :=
  create_loop_fail_filter oracle cache dstp filteri filtere p (entries.drop 1) pool
